import Mathlib

/-!
Verification of the vWTMonitor specification against a shallow embedding of the
source (`vwt_monitor/` and `ztw_manager/`).

Python strings are modelled as `String` values whose manipulation happens on
the underlying character list (`String.data`), because the Python operations
used by the source (`strip`, `split`, `startswith`, `endswith`, `in`,
concatenation) are character-level.  Timestamps are modelled as natural
numbers (seconds), float arithmetic as exact rational arithmetic over `ℚ`.
-/

set_option maxHeartbeats 1000000

namespace VWT

/-! ### Python string primitives (character-list level) -/

/-- Python `str.split()` with no separator: split on runs of whitespace and
drop empty fields.  The accumulator holds the current word, reversed. -/
def pyWordsAux : List Char → List Char → List (List Char)
  | [], acc => if acc.isEmpty then [] else [acc.reverse]
  | c :: cs, acc =>
    if c.isWhitespace then
      if acc.isEmpty then pyWordsAux cs [] else acc.reverse :: pyWordsAux cs []
    else
      pyWordsAux cs (c :: acc)

/-- Python `s.strip().split()`: `split()` already ignores leading and trailing
whitespace, so the `strip()` the source performs first is absorbed. -/
def pyWords (s : List Char) : List (List Char) :=
  pyWordsAux s []

/-- Python `s.strip()` (whitespace on both ends). -/
def pyStrip (s : List Char) : List Char :=
  ((s.dropWhile Char.isWhitespace).reverse.dropWhile Char.isWhitespace).reverse

/-- Python `s.startswith(pre)`. -/
def pyStartsWith (pre s : List Char) : Bool :=
  pre.isPrefixOf s

/-- Python `s.endswith(post)`. -/
def pyEndsWith (post s : List Char) : Bool :=
  post.reverse.isPrefixOf s.reverse

/-- Python `pat in s` (substring containment). -/
def pyContainsSub (pat s : List Char) : Bool :=
  (List.range (s.length + 1)).any fun i => pat.isPrefixOf (s.drop i)

/-- Number of character positions at which `pat` starts inside `s`; a single
contiguous occurrence of `pat` contributes exactly one position. -/
def subOccurrences (pat s : List Char) : Nat :=
  (List.range (s.length + 1)).countP fun i => pat.isPrefixOf (s.drop i)

/-! ### Channel manager (`vwt_monitor/channel_manager.py`) -/

/-- `ChannelCommand` dataclass (channel_manager.py lines 18-27). -/
structure ChannelCommand where
  command : String
  timeout : ℚ := 30
  expectPatterns : List (List Char) := []
  expectResponses : List (List Char × List Char) := []
  waitForPrompt : Bool := false
  cleanChannel : Bool := false
  deriving Repr, DecidableEq

/-- `ChannelResult` dataclass (channel_manager.py lines 30-40); the
`timestamp` and `channel_state` bookkeeping fields are omitted. -/
structure ChannelResult where
  command : String
  output : String := ""
  error : String := ""
  exitCode : Option Int := none
  duration : ℚ := 0
  success : Bool := true
  deriving Repr, DecidableEq

/-- `ChannelManager._update_current_directory` (channel_manager.py lines
359-383).  The tracked directory starts as Python `None` (`create_channel`
initialises `current_directory = None`), modelled by `none`.  The source reads
`self.channel_info[host].get('current_directory', '/')`; the `'/'` default is
taken only when the key is absent, which cannot happen once the channel
exists, so the read returns the stored value, possibly `None`.  When the value
is `None`, the subsequent `current.endswith('/')` raises `AttributeError`,
which the surrounding `try/except` swallows, leaving the tracked directory
unchanged.  On `cd -` the source executes `pass` (directory history is not
implemented), leaving the tracked directory unchanged. -/
def updateCurrentDirectory (currentDir : Option (List Char)) (cdCommand : String) :
    Option (List Char) :=
  match pyWords (pyStrip cdCommand.data) with
  | _ :: directory :: _ =>
    if directory = "-".data then
      currentDir
    else if pyStartsWith "/".data directory then
      some directory
    else
      match currentDir with
      | none => currentDir
      | some current =>
        if pyEndsWith "/".data current then some (current ++ directory)
        else some (current ++ "/".data ++ directory)
  | _ => currentDir

/-- The guard `cmd.command.strip().startswith('cd ')` from
`execute_chain_commands` (channel_manager.py line 201). -/
def isCdCommand (command : String) : Bool :=
  pyStartsWith "cd ".data (pyStrip command.data)

/-- `ChannelManager.execute_chain_commands` (channel_manager.py lines
167-215), with the execution of one command on the live channel
(`_execute_single_command`) abstracted as the oracle `exec`.  The loop
appends each result, breaks after the first failing command, and updates the
tracked current directory after every successful `cd` command.  Returns the
result list together with the final tracked directory. -/
def executeChainCommands (exec : ChannelCommand → ChannelResult)
    (currentDir : Option (List Char)) :
    List ChannelCommand → List ChannelResult × Option (List Char)
  | [] => ([], currentDir)
  | cmd :: rest =>
    let result := exec cmd
    if result.success then
      let dir1 :=
        if isCdCommand cmd.command then updateCurrentDirectory currentDir cmd.command
        else currentDir
      let tail := executeChainCommands exec dir1 rest
      (result :: tail.1, tail.2)
    else
      ([result], currentDir)

/-- Demo oracle for the spec scenario: every command succeeds with exit code 0
except the literal command `false`, which exits 1 (spec §8 scenario 2). -/
def chainDemoExec (cmd : ChannelCommand) : ChannelResult :=
  if cmd.command = "false" then
    { command := cmd.command, exitCode := some 1, success := false }
  else
    { command := cmd.command, exitCode := some 0, success := true }

/-- The scenario command list `["cd /tmp", "ls", "false", "echo skipped"]`. -/
def chainDemoCommands : List ChannelCommand :=
  [{ command := "cd /tmp" }, { command := "ls" }, { command := "false" },
   { command := "echo skipped" }]

/-- Oracle under which every command succeeds (for directory tracking). -/
def cdDemoExec (cmd : ChannelCommand) : ChannelResult :=
  { command := cmd.command, exitCode := some 0, success := true }

/-- The directory-tracking scenario `cd /a; cd b; cd -` (spec §8 invariant 4). -/
def cdDemoCommands : List ChannelCommand :=
  [{ command := "cd /a" }, { command := "cd b" }, { command := "cd -" }]

/-- The chain loop produces the image under the execution oracle of the
command prefix that ends with the first failing command (the whole list when
every command succeeds). -/
theorem executeChainCommands_results (exec : ChannelCommand → ChannelResult)
    (d : Option (List Char)) (cmds : List ChannelCommand) :
    (executeChainCommands exec d cmds).1 =
      (cmds.take ((cmds.takeWhile fun c => (exec c).success).length + 1)).map exec := by
  induction cmds generalizing d with
  | nil => simp [executeChainCommands]
  | cons c t ih =>
    by_cases hc : (exec c).success
    · simp [executeChainCommands, hc, List.takeWhile_cons, ih]
    · simp [executeChainCommands, hc, List.takeWhile_cons]

/-- When some command in the chain fails, the produced result list ends with a
failed result. -/
theorem executeChainCommands_last_failure (exec : ChannelCommand → ChannelResult)
    (d : Option (List Char)) (cmds : List ChannelCommand)
    (h : ∃ c ∈ cmds, (exec c).success = false) :
    ∃ r, (executeChainCommands exec d cmds).1.getLast? = some r ∧ r.success = false := by
  induction cmds generalizing d with
  | nil => simp at h
  | cons c t ih =>
    by_cases hc : (exec c).success
    · obtain ⟨x, hx, hxf⟩ := h
      rcases List.mem_cons.1 hx with rfl | hxt
      · exact absurd hc (by simp [hxf])
      · obtain ⟨r, hr, hrf⟩ := ih (if isCdCommand c.command then
          updateCurrentDirectory d c.command else d) ⟨x, hxt, hxf⟩
        refine ⟨r, ?_, hrf⟩
        simp only [executeChainCommands, hc, if_true]
        rw [List.getLast?_cons, hr]
        simp
    · refine ⟨exec c, ?_, by simpa using hc⟩
      simp [executeChainCommands, hc]

/-- C1: on every host (the oracle `exec` stands for the host's live channel)
and every list of chain commands, the commands are executed in order and the
chain stops after the first failing command: the result list is the image of
the command prefix ending at the first failure, when a command fails the last
result is failed, and in the `["cd /tmp", "ls", "false", "echo skipped"]`
scenario exactly 3 results are produced, `"echo skipped"` is not executed,
and the last result has `success = false`. -/
theorem chain_stops_after_first_failing_command :
    (∀ (exec : ChannelCommand → ChannelResult) (d : Option (List Char))
      (cmds : List ChannelCommand),
      (executeChainCommands exec d cmds).1 =
        (cmds.take ((cmds.takeWhile fun c => (exec c).success).length + 1)).map exec)
    ∧ (∀ (exec : ChannelCommand → ChannelResult) (d : Option (List Char))
        (cmds : List ChannelCommand), (∃ c ∈ cmds, (exec c).success = false) →
        ∃ r, (executeChainCommands exec d cmds).1.getLast? = some r ∧ r.success = false)
    ∧ (executeChainCommands chainDemoExec none chainDemoCommands).1.length = 3
    ∧ (executeChainCommands chainDemoExec none chainDemoCommands).1.map
        (fun r => r.command) = ["cd /tmp", "ls", "false"]
    ∧ (executeChainCommands chainDemoExec none chainDemoCommands).1.getLast?.map
        (fun r => r.success) = some false := by
  refine ⟨executeChainCommands_results, executeChainCommands_last_failure, ?_, ?_, ?_⟩ <;> decide

/-- Witness for C1 at the concrete scenario: the failing-chain branch applied
to `["cd /tmp", "ls", "false", "echo skipped"]`. -/
theorem chain_stops_after_first_failing_command_witness :
    ∃ r, (executeChainCommands chainDemoExec none chainDemoCommands).1.getLast? = some r ∧
      r.success = false :=
  chain_stops_after_first_failing_command.2.1 chainDemoExec none chainDemoCommands
    ⟨{ command := "false" }, by decide, by decide⟩

/-- Splitting a whitespace-free word gives back the accumulator and the word. -/
theorem pyWordsAux_no_ws (arg : List Char) :
    ∀ acc, (∀ c ∈ arg, c.isWhitespace = false) →
      pyWordsAux arg acc =
        if (acc.reverse ++ arg).isEmpty then [] else [acc.reverse ++ arg] := by
  induction arg with
  | nil =>
    intro acc h
    cases acc <;> simp [pyWordsAux]
  | cons c cs ih =>
    intro acc h
    have hc : c.isWhitespace = false := h c (by simp)
    rw [pyWordsAux, if_neg (by simp [hc]), ih (c :: acc) (fun x hx => h x (by simp [hx]))]
    simp

/-- `dropWhile` leaves a list alone when its head does not satisfy the
predicate. -/
theorem dropWhile_eq_self_of_head (p : Char → Bool) (l : List Char)
    (h : ∀ c, l.head? = some c → p c = false) : l.dropWhile p = l := by
  cases l with
  | nil => rfl
  | cons a t =>
    rw [List.dropWhile_cons]
    simp [h a rfl]

/-- Stripping leaves a string alone when neither end is whitespace. -/
theorem pyStrip_eq_self (s : List Char)
    (h1 : ∀ c, s.head? = some c → c.isWhitespace = false)
    (h2 : ∀ c, s.getLast? = some c → c.isWhitespace = false) :
    pyStrip s = s := by
  unfold pyStrip
  rw [dropWhile_eq_self_of_head _ s h1,
    dropWhile_eq_self_of_head _ s.reverse
      (fun c hc => h2 c (by rwa [List.head?_reverse] at hc)),
    List.reverse_reverse]

/-- The last element of `cd <word>` is the last element of the word. -/
theorem getLast?_cd (arg : List Char) (hne : arg ≠ []) :
    ('c' :: 'd' :: ' ' :: arg).getLast? = arg.getLast? := by
  rw [show 'c' :: 'd' :: ' ' :: arg = ['c', 'd', ' '] ++ arg from rfl,
    List.getLast?_append_of_ne_nil _ hne]

/-- Stripping `cd <word>` (no whitespace inside the nonempty word) is the
identity. -/
theorem pyStrip_cd (arg : List Char) (hne : arg ≠ [])
    (h : ∀ c ∈ arg, c.isWhitespace = false) :
    pyStrip ('c' :: 'd' :: ' ' :: arg) = 'c' :: 'd' :: ' ' :: arg := by
  apply pyStrip_eq_self
  · intro c hc
    simp only [List.head?_cons, Option.some.injEq] at hc
    subst hc
    decide
  · intro c hc
    rw [getLast?_cd arg hne] at hc
    exact h c (List.mem_of_mem_getLast? (Option.mem_def.2 hc))

/-- Splitting `cd <word>` (no whitespace inside the word) yields the two
fields `cd` and the word, after the strip the source performs. -/
theorem pyWords_cd (arg : List Char) (hne : arg ≠ [])
    (h : ∀ c ∈ arg, c.isWhitespace = false) :
    pyWords (pyStrip ('c' :: 'd' :: ' ' :: arg)) = [['c', 'd'], arg] := by
  rw [pyStrip_cd arg hne h]
  show pyWordsAux ('c' :: 'd' :: ' ' :: arg) [] = [['c', 'd'], arg]
  rw [pyWordsAux, if_neg (by decide), pyWordsAux, if_neg (by decide), pyWordsAux,
    if_pos (by decide), if_neg (by decide), pyWordsAux_no_ws arg [] h,
    if_neg (by simpa [List.isEmpty_iff] using hne)]
  rfl

/-- C2 counterexample: on a fresh channel, after the successful chain
`cd /a; cd b; cd -`, the tracked current directory is still `/a/b`; it does
not revert to `/a`, because the `cd -` branch of
`_update_current_directory` is `pass`. -/
theorem cd_dash_leaves_tracked_directory_unchanged :
    (executeChainCommands cdDemoExec none cdDemoCommands).2 = some "/a/b".data ∧
      (executeChainCommands cdDemoExec none cdDemoCommands).2 ≠ some "/a".data := by
  constructor <;> decide

/-- C2 amended: after every successful `cd X` executed through the chain
loop, an absolute path replaces the tracked directory and a relative path is
concatenated onto it, but `cd -` leaves the tracked directory unchanged
(directory history is not implemented); so after `cd /a; cd b; cd -` the
tracked directory is `/a/b`, not `/a`. -/
theorem tracked_directory_update_amended :
    (∀ (dir : Option (List Char)) (arg : List Char), arg ≠ [] →
      (∀ c ∈ arg, c.isWhitespace = false) → pyStartsWith ['/'] arg = true →
      (executeChainCommands cdDemoExec dir
        [{ command := String.mk ('c' :: 'd' :: ' ' :: arg) }]).2 = some arg)
    ∧ (∀ (current arg : List Char), arg ≠ [] →
        (∀ c ∈ arg, c.isWhitespace = false) → pyStartsWith ['/'] arg = false →
        arg ≠ ['-'] → pyEndsWith ['/'] current = false →
        (executeChainCommands cdDemoExec (some current)
          [{ command := String.mk ('c' :: 'd' :: ' ' :: arg) }]).2 =
          some (current ++ ['/'] ++ arg))
    ∧ (∀ dir : Option (List Char),
        (executeChainCommands cdDemoExec dir [{ command := "cd -" }]).2 = dir)
    ∧ (executeChainCommands cdDemoExec none cdDemoCommands).2 = some "/a/b".data := by
  have hcd : ∀ (arg : List Char), arg ≠ [] → (∀ c ∈ arg, c.isWhitespace = false) →
      isCdCommand (String.mk ('c' :: 'd' :: ' ' :: arg)) = true := by
    intro arg hne h
    show pyStartsWith "cd ".data (pyStrip ('c' :: 'd' :: ' ' :: arg)) = true
    rw [pyStrip_cd arg hne h]
    show List.isPrefixOf ['c', 'd', ' '] ('c' :: 'd' :: ' ' :: arg) = true
    simp [List.isPrefixOf]
  refine ⟨?_, ?_, ?_, by decide⟩
  · intro dir arg hne h habs
    have harg : arg ≠ ['-'] := by
      intro hcontra
      rw [hcontra] at habs
      exact absurd habs (by decide)
    simp only [executeChainCommands, cdDemoExec, if_true]
    rw [if_pos (hcd arg hne h)]
    simp only [updateCurrentDirectory]
    rw [pyWords_cd arg hne h]
    simp [harg, habs]
  · intro current arg hne h habs hdash hslash
    simp only [executeChainCommands, cdDemoExec, if_true]
    rw [if_pos (hcd arg hne h)]
    simp only [updateCurrentDirectory]
    rw [pyWords_cd arg hne h]
    simp [hdash, habs, hslash]
  · intro dir
    have h1 : isCdCommand "cd -" = true := by decide
    have h2 : pyWords (pyStrip "cd -".data) = [['c', 'd'], ['-']] := by decide
    simp only [executeChainCommands, cdDemoExec, if_true]
    rw [if_pos h1]
    simp [updateCurrentDirectory, h2]

/-- Witness for the amended C2 theorem: concrete absolute, relative and
`cd -` updates on the `cd /a; cd b; cd -` scenario. -/
theorem tracked_directory_update_amended_witness :
    (executeChainCommands cdDemoExec none
      [{ command := String.mk ('c' :: 'd' :: ' ' :: "/a".data) }]).2 = some "/a".data ∧
    (executeChainCommands cdDemoExec (some "/a".data)
      [{ command := String.mk ('c' :: 'd' :: ' ' :: "b".data) }]).2 = some "/a/b".data ∧
    (executeChainCommands cdDemoExec (some "/a/b".data) [{ command := "cd -" }]).2 =
      some "/a/b".data :=
  ⟨tracked_directory_update_amended.1 none "/a".data (by decide) (by decide) (by decide),
   by
    have h := tracked_directory_update_amended.2.1 "/a".data "b".data (by decide) (by decide)
      (by decide) (by decide) (by decide)
    simpa using h,
   tracked_directory_update_amended.2.2.1 (some "/a/b".data)⟩

/-! ### Output collection (`ChannelManager.fetch_output`, channel_manager.py
lines 289-349)

One poll iteration of the `while` loop either receives a chunk of data
(`some d`, appended to the accumulated stdout) or finds no data ready
(`none`, incrementing the no-data counter).  When a chunk arrives, the loop
scans the whole accumulated stdout for every expect pattern and sends the
mapped response (plus a newline) for each pattern found; nothing tracks
which patterns already fired.  The loop-exit conditions (prompt match, exit
status, iteration budget, timeout) only decide how many poll iterations run,
so a run over an arbitrary finite event schedule models every reachable
poll sequence. -/

/-- State of one `fetch_output` run: accumulated stdout and stderr, the
consecutive no-data counter, and the log of responses sent on the channel. -/
structure FetchState where
  output : List Char
  error : List Char
  iterations : Nat
  sent : List (List Char)
  deriving Repr, DecidableEq

/-- State at entry of `fetch_output`. -/
def initialFetchState : FetchState :=
  { output := [], error := [], iterations := 0, sent := [] }

/-- The expect-pattern scan performed after a chunk arrives (channel_manager.py
lines 325-333): guarded by `if expect_patterns and expect_responses:`, it
sends `expect_responses.get(pattern, "") + "\n"` for every pattern occurring
anywhere in the accumulated stdout whose mapped response is non-empty. -/
def firedResponses (patterns : List (List Char))
    (responses : List (List Char × List Char)) (out : List Char) :
    List (List Char) :=
  if patterns.isEmpty || responses.isEmpty then []
  else
    patterns.filterMap fun pattern =>
      if pyContainsSub pattern out then
        let response := (responses.lookup pattern).getD []
        if response.isEmpty then none else some (response ++ ['\n'])
      else none

/-- One poll iteration of the `fetch_output` loop. -/
def fetchStep (patterns : List (List Char))
    (responses : List (List Char × List Char)) (st : FetchState)
    (ev : Option (List Char)) : FetchState :=
  match ev with
  | none => { st with iterations := st.iterations + 1 }
  | some d =>
    let out := st.output ++ d
    { st with
      output := out
      iterations := 0
      sent := st.sent ++ firedResponses patterns responses out }

/-- A `fetch_output` run over a finite schedule of poll events. -/
def fetchOutputRun (patterns : List (List Char))
    (responses : List (List Char × List Char))
    (events : List (Option (List Char))) : FetchState :=
  events.foldl (fetchStep patterns responses) initialFetchState

/-- The accumulated stdout after each data-carrying poll event. -/
def dataOutputs (cur : List Char) : List (Option (List Char)) → List (List Char)
  | [] => []
  | none :: evs => dataOutputs cur evs
  | some d :: evs => (cur ++ d) :: dataOutputs (cur ++ d) evs

/-- C3 counterexample: with expect pattern `password:` mapped to `s3cret`,
the event schedule "chunk `password:`, then chunk `x`" causes the response
to be sent twice although the final accumulated stdout `password:x` contains
exactly one contiguous occurrence of the pattern: the scan re-fires on every
new chunk while the pattern remains anywhere in the accumulated stdout. -/
theorem expect_pattern_refires_on_new_data :
    (fetchOutputRun ["password:".data] [("password:".data, "s3cret".data)]
      [some "password:".data, some "x".data]).sent =
      ["s3cret\n".data, "s3cret\n".data]
    ∧ subOccurrences "password:".data
        (fetchOutputRun ["password:".data] [("password:".data, "s3cret".data)]
          [some "password:".data, some "x".data]).output = 1
    ∧ ¬((fetchOutputRun ["password:".data] [("password:".data, "s3cret".data)]
          [some "password:".data, some "x".data]).sent.length ≤ 1) := by
  refine ⟨by decide, by decide, by decide⟩

/-- The send log of a run from an arbitrary state is the flat image of the
firing scan over the accumulated outputs at each data event. -/
theorem fetchRun_sent_characterization (patterns : List (List Char))
    (responses : List (List Char × List Char)) :
    ∀ (events : List (Option (List Char))) (st : FetchState),
      (events.foldl (fetchStep patterns responses) st).sent =
        st.sent ++ (dataOutputs st.output events).flatMap
          (firedResponses patterns responses) := by
  intro events
  induction events with
  | nil => intro st; simp [dataOutputs]
  | cons ev t ih =>
    intro st
    cases ev with
    | none =>
      rw [List.foldl_cons, ih]
      simp [fetchStep, dataOutputs]
    | some d =>
      rw [List.foldl_cons, ih]
      simp [fetchStep, dataOutputs, List.append_assoc]

/-- C3 amended: a poll iteration without new data sends nothing (a pattern
is never re-fired without intervening new data), and in every poll iteration
in which new data arrives, each expect pattern with a non-empty mapped
response fires once whenever the pattern occurs anywhere in the accumulated
stdout — once per data-carrying poll, not once per contiguous occurrence. -/
theorem expect_pattern_firing_amended (patterns : List (List Char))
    (responses : List (List Char × List Char)) :
    (∀ st : FetchState, fetchStep patterns responses st none =
      { st with iterations := st.iterations + 1 })
    ∧ (∀ events : List (Option (List Char)),
        (fetchOutputRun patterns responses events).sent =
          (dataOutputs [] events).flatMap (firedResponses patterns responses))
    ∧ (∀ (pattern response out : List Char),
        pattern ∈ patterns → responses.lookup pattern = some response →
        response ≠ [] → pyContainsSub pattern out = true → responses ≠ [] →
        response ++ ['\n'] ∈ firedResponses patterns responses out) := by
  refine ⟨fun st => rfl, ?_, ?_⟩
  · intro events
    have h := fetchRun_sent_characterization patterns responses events initialFetchState
    simpa [fetchOutputRun, initialFetchState] using h
  · intro pattern response out hp hlook hne hsub hres
    unfold firedResponses
    rw [if_neg]
    · refine List.mem_filterMap.2 ⟨pattern, hp, ?_⟩
      rw [if_pos hsub, hlook]
      simp [List.isEmpty_iff, hne]
    · have hpat : patterns ≠ [] := by
        intro hnil
        rw [hnil] at hp
        simp at hp
      simp [List.isEmpty_iff, hpat, hres]

/-- Witness for the amended C3 theorem at the password scenario. -/
theorem expect_pattern_firing_amended_witness :
    "s3cret".data ++ ['\n'] ∈ firedResponses ["password:".data]
      [("password:".data, "s3cret".data)] "password:x".data :=
  (expect_pattern_firing_amended ["password:".data]
    [("password:".data, "s3cret".data)]).2.2 "password:".data "s3cret".data
    "password:x".data (by decide) (by decide) (by decide) (by decide) (by decide)

/-! ### Connection pool (`vwt_monitor/connection_pool.py`)

The pool dictionary is modelled as an association list in insertion order
(CPython dicts preserve insertion order); the paramiko client object is
dropped and the liveness probe `_test_connection` is abstracted as a
key-indexed oracle.  Timestamps are naturals (seconds); idle times are
computed in `ℤ` like the float subtraction in the source. -/

/-- `ConnectionInfo` dataclass (connection_pool.py lines 21-33), without the
`client` handle. -/
structure ConnectionInfo where
  host : List Char
  port : Nat
  user : List Char
  createdAt : Nat
  lastUsed : Nat
  useCount : Nat := 0
  isActive : Bool := true
  errorCount : Nat := 0
  lastError : Option String := none
  deriving Repr, DecidableEq

/-- The pool map `self._connections`, in insertion order. -/
abbrev Pool := List (List Char × ConnectionInfo)

/-- `_get_connection_key` (connection_pool.py lines 80-82):
`f"{user}@{host}:{port}"`. -/
def connectionKey (host : List Char) (port : Nat) (user : List Char) : List Char :=
  user ++ '@' :: host ++ ':' :: Nat.toDigits 10 port

/-- `_remove_connection` (connection_pool.py lines 242-247): delete the key
from the dictionary. -/
def removeConnection (key : List Char) (pool : Pool) : Pool :=
  pool.filter fun kc => kc.1 != key

/-- The idle-connection collection of `_cleanup_idle_connections`
(connection_pool.py lines 280-289): active entries whose idle time exceeds
`max_idle_time`, paired with their idle times, in pool order. -/
def idleCandidates (now : Nat) (maxIdleTime : Int) (pool : Pool) :
    List (List Char × Int) :=
  pool.filterMap fun kc =>
    if kc.2.isActive = false then none
    else
      if maxIdleTime < (now : Int) - (kc.2.lastUsed : Int) then
        some (kc.1, (now : Int) - (kc.2.lastUsed : Int))
      else none

/-- `_cleanup_idle_connections` (connection_pool.py lines 273-297): sort the
candidates by idle time descending (largest first) and remove the first
`count` of them (`len(idle_connections)` when `count is None`). -/
def cleanupIdleConnections (now : Nat) (maxIdleTime : Int) (count : Option Nat)
    (pool : Pool) : Pool :=
  let idleConnections := idleCandidates now maxIdleTime pool
  let sorted := List.insertionSort (fun a b => b.2 ≤ a.2) idleConnections
  let toRemove := match count with
    | some c => c
    | none => idleConnections.length
  (sorted.take toRemove).foldl (fun p kc => removeConnection kc.1 p) pool

/-- The creation tail of `get_connection` (connection_pool.py lines 182-203):
evict one idle connection when at capacity, create the new client, insert
the fresh `ConnectionInfo` under the key. -/
def createAndInsert (maxConnections : Nat) (maxIdleTime : Int) (now : Nat)
    (key : List Char) (newInfo : ConnectionInfo) (pool : Pool) : Pool :=
  let pool1 :=
    if maxConnections ≤ pool.length then
      cleanupIdleConnections now maxIdleTime (some 1) pool
    else pool
  pool1 ++ [(key, newInfo)]

/-- `get_connection` (connection_pool.py lines 144-203), tracking the pool
contents.  `testOk` abstracts `_test_connection` on the cached client; the
creation of the new paramiko client is assumed to succeed, yielding a fresh
`ConnectionInfo` with `use_count = 1` and both timestamps at `now`. -/
def getConnection (maxConnections : Nat) (maxIdleTime : Int)
    (testOk : List Char → Bool) (now : Nat) (host : List Char) (port : Nat)
    (user : List Char) (pool : Pool) : Pool :=
  let key := connectionKey host port user
  let newInfo : ConnectionInfo :=
    { host := host, port := port, user := user, createdAt := now,
      lastUsed := now, useCount := 1 }
  match pool.find? (fun kc => kc.1 == key) with
  | some kc =>
    if kc.2.isActive then
      if testOk key then
        pool.map fun e =>
          if e.1 == key then
            (key, { kc.2 with lastUsed := now, useCount := kc.2.useCount + 1 })
          else e
      else
        createAndInsert maxConnections maxIdleTime now key newInfo
          (removeConnection key pool)
    else
      createAndInsert maxConnections maxIdleTime now key newInfo
        (removeConnection key pool)
  | none => createAndInsert maxConnections maxIdleTime now key newInfo pool

/-- A pool entry created and last used at time 1000 on host `h1`. -/
def h1Conn : ConnectionInfo :=
  { host := "h1".data, port := 22, user := "u".data, createdAt := 1000,
    lastUsed := 1000, useCount := 1 }

/-- C4 counterexample: a pool at capacity (`max_connections = 1`) whose only
entry was used just now (idle time 0 ≤ `max_idle_time = 300`) evicts nothing
when a connection to a second host is requested, and afterwards holds 2 > 1
entries: `_cleanup_idle_connections` only removes connections idle longer
than `max_idle_time`, so the pool exceeds `max_connections`. -/
theorem pool_capacity_exceeded_without_idle_entries :
    (getConnection 1 300 (fun _ => true) 1000 "h2".data 22 "u".data
      [(connectionKey "h1".data 22 "u".data,
        h1Conn)]).length = 2 ∧
    ¬((getConnection 1 300 (fun _ => true) 1000 "h2".data 22 "u".data
      [(connectionKey "h1".data 22 "u".data,
        h1Conn)]).length ≤ 1) := by
  constructor <;> decide

/-- Removing a key that occurs once (keys are dictionary keys, hence nodup)
shrinks the pool by exactly one entry. -/
theorem removeConnection_length (k : List Char) (pool : Pool)
    (hnd : (pool.map Prod.fst).Nodup) (hmem : ∃ c, (k, c) ∈ pool) :
    (removeConnection k pool).length + 1 = pool.length := by
  induction pool with
  | nil => simp at hmem
  | cons e t ih =>
    rw [List.map_cons, List.nodup_cons] at hnd
    by_cases hk : e.1 = k
    · have hfilter : t.filter (fun kc => kc.1 != k) = t := by
        apply List.filter_eq_self.2
        intro a ha
        have : a.1 ∈ t.map Prod.fst := List.mem_map_of_mem Prod.fst ha
        have hne : a.1 ≠ k := fun hh => hnd.1 (hk ▸ hh ▸ this)
        simpa using hne
      simp only [removeConnection, List.filter_cons]
      rw [if_neg (by simp [hk]), show List.filter (fun kc => kc.1 != k) t =
        removeConnection k t from rfl]
      unfold removeConnection
      rw [hfilter]
      simp
    · obtain ⟨c, hc⟩ := hmem
      rcases List.mem_cons.1 hc with rfl | hct
      · simp at hk
      · have := ih hnd.2 ⟨c, hct⟩
        simp only [removeConnection, List.filter_cons]
        rw [if_pos (by simpa using hk)]
        simp only [List.length_cons]
        unfold removeConnection at this
        omega

/-- A cleanup candidate is an active pool entry idle beyond the threshold. -/
theorem idleCandidates_mem (now : Nat) (maxIdleTime : Int) (pool : Pool)
    (k : List Char) (idle : Int)
    (h : (k, idle) ∈ idleCandidates now maxIdleTime pool) :
    ∃ c, (k, c) ∈ pool ∧ c.isActive = true ∧
      idle = (now : Int) - (c.lastUsed : Int) ∧ maxIdleTime < idle := by
  obtain ⟨kc, hkc, heq⟩ := List.mem_filterMap.1 h
  by_cases h1 : kc.2.isActive = false
  · rw [if_pos h1] at heq
    exact absurd heq (by simp)
  · rw [if_neg h1] at heq
    by_cases h2 : maxIdleTime < (now : Int) - (kc.2.lastUsed : Int)
    · rw [if_pos h2] at heq
      obtain ⟨hk, hidle⟩ := Prod.mk.injEq .. ▸ Option.some.inj heq
      refine ⟨kc.2, ?_, ?_, hidle.symm, hidle ▸ h2⟩
      · rw [← hk]
        exact hkc
      · simpa using h1
    · rw [if_neg h2] at heq
      exact absurd heq (by simp)

/-- `_cleanup_idle_connections(1)`: with no candidate nothing is evicted;
otherwise exactly the candidate with the largest idle time is removed. -/
theorem cleanupIdleConnections_one (now : Nat) (maxIdleTime : Int) (pool : Pool) :
    (idleCandidates now maxIdleTime pool = [] →
      cleanupIdleConnections now maxIdleTime (some 1) pool = pool)
    ∧ (idleCandidates now maxIdleTime pool ≠ [] →
      ∃ k idle, (k, idle) ∈ idleCandidates now maxIdleTime pool ∧
        (∀ e ∈ idleCandidates now maxIdleTime pool, e.2 ≤ idle) ∧
        cleanupIdleConnections now maxIdleTime (some 1) pool =
          removeConnection k pool) := by
  constructor
  · intro hnone
    simp [cleanupIdleConnections, hnone, List.insertionSort]
  · intro hsome
    haveI instTot : IsTotal (List Char × Int) (fun a b => b.2 ≤ a.2) :=
      ⟨fun a b => le_total b.2 a.2⟩
    haveI instTrans : IsTrans (List Char × Int) (fun a b => b.2 ≤ a.2) :=
      ⟨fun _ _ _ hab hbc => le_trans hbc hab⟩
    set cands := idleCandidates now maxIdleTime pool with hcands
    have hperm := List.perm_insertionSort (fun a b : List Char × Int => b.2 ≤ a.2) cands
    have hsorted := List.sorted_insertionSort (fun a b : List Char × Int => b.2 ≤ a.2) cands
    cases hsort : List.insertionSort (fun a b : List Char × Int => b.2 ≤ a.2) cands with
    | nil =>
      rw [hsort] at hperm
      exact absurd (hperm.symm.eq_nil) hsome
    | cons hd tl =>
      rw [hsort] at hperm hsorted
      have hhead : ∀ b ∈ tl, b.2 ≤ hd.2 := fun b hb =>
        (List.sorted_cons.1 hsorted).1 b hb
      refine ⟨hd.1, hd.2, ?_, ?_, ?_⟩
      · exact hperm.subset (by simp)
      · intro e he
        rcases List.mem_cons.1 (hperm.mem_iff.2 he) with rfl | hetl
        · exact le_refl _
        · exact hhead e hetl
      · simp only [cleanupIdleConnections, ← hcands, hsort]
        rfl

/-- C4 amended: when `get_connection` is called with the pool at capacity
and the key absent, eviction happens only if some active entry is idle
longer than `max_idle_time`: in that case the candidate with the largest
idle time is removed and the pool size is preserved; with no such entry
nothing is evicted and the pool grows past `max_connections`. -/
theorem pool_eviction_amended (maxConnections : Nat) (maxIdleTime : Int)
    (testOk : List Char → Bool) (now : Nat) (host : List Char) (port : Nat)
    (user : List Char) (pool : Pool)
    (hnd : (pool.map Prod.fst).Nodup)
    (habsent : pool.find? (fun kc => kc.1 == connectionKey host port user) = none)
    (hcap : maxConnections ≤ pool.length) :
    (idleCandidates now maxIdleTime pool = [] →
      (getConnection maxConnections maxIdleTime testOk now host port user
        pool).length = pool.length + 1 ∧
      maxConnections < (getConnection maxConnections maxIdleTime testOk now host
        port user pool).length)
    ∧ (idleCandidates now maxIdleTime pool ≠ [] →
      ∃ k idle, (k, idle) ∈ idleCandidates now maxIdleTime pool ∧
        (∀ e ∈ idleCandidates now maxIdleTime pool, e.2 ≤ idle) ∧
        getConnection maxConnections maxIdleTime testOk now host port user pool =
          removeConnection k pool ++
            [(connectionKey host port user,
              { host := host, port := port, user := user, createdAt := now,
                lastUsed := now, useCount := 1 })] ∧
        (getConnection maxConnections maxIdleTime testOk now host port user
          pool).length = pool.length) := by
  have hget : getConnection maxConnections maxIdleTime testOk now host port user
      pool = cleanupIdleConnections now maxIdleTime (some 1) pool ++
        [(connectionKey host port user,
          { host := host, port := port, user := user, createdAt := now,
            lastUsed := now, useCount := 1 })] := by
    simp only [getConnection, habsent, createAndInsert, if_pos hcap]
  constructor
  · intro hnone
    rw [hget, (cleanupIdleConnections_one now maxIdleTime pool).1 hnone]
    constructor
    · simp
    · simp only [List.length_append, List.length_cons, List.length_nil]
      omega
  · intro hsome
    obtain ⟨k, idle, hmem, hmax, hclean⟩ :=
      (cleanupIdleConnections_one now maxIdleTime pool).2 hsome
    obtain ⟨c, hcpool, _, _, _⟩ := idleCandidates_mem now maxIdleTime pool k idle hmem
    have hlen := removeConnection_length k pool hnd ⟨c, hcpool⟩
    refine ⟨k, idle, hmem, hmax, ?_, ?_⟩
    · rw [hget, hclean]
    · rw [hget, hclean]
      simp only [List.length_append, List.length_cons, List.length_nil]
      omega

/-- Witness for the amended C4 theorem: the at-capacity no-candidate case of
the counterexample pool. -/
theorem pool_eviction_amended_witness :
    (getConnection 1 300 (fun _ => true) 1000 "h2".data 22 "u".data
      [(connectionKey "h1".data 22 "u".data,
        h1Conn)]).length =
      [(connectionKey "h1".data 22 "u".data,
        h1Conn)].length + 1 ∧
    1 < (getConnection 1 300 (fun _ => true) 1000 "h2".data 22 "u".data
      [(connectionKey "h1".data 22 "u".data,
        h1Conn)]).length :=
  (pool_eviction_amended 1 300 (fun _ => true) 1000 "h2".data 22 "u".data
    [(connectionKey "h1".data 22 "u".data,
      h1Conn)]
    (by decide) (by decide) (by decide)).1 (by decide)

/-! ### Pool health check (`ConnectionPool._start_health_check`,
connection_pool.py lines 299-330) -/

/-- The probe step of the health-check loop body for one snapshot entry
(connection_pool.py lines 309-319): inactive entries are skipped; a failed
probe marks the entry inactive, increments `error_count`, sets `last_error`,
and removes the entry only if `error_count` reaches 3. -/
def probeEntry (testOk : List Char → Bool) (p : Pool)
    (kc : List Char × ConnectionInfo) : Pool :=
  if kc.2.isActive = false then p
  else if testOk kc.1 then p
  else
    let updated := { kc.2 with
      isActive := false
      errorCount := kc.2.errorCount + 1
      lastError := some "Connection test failed" }
    if 3 ≤ updated.errorCount then removeConnection kc.1 p
    else p.map fun e => if e.1 == kc.1 then (kc.1, updated) else e

/-- One round of the health-check loop (connection_pool.py lines 301-320):
idle cleanup, then probe every entry of the post-cleanup snapshot. -/
def healthCheckRound (maxIdleTime : Int) (testOk : List Char → Bool) (now : Nat)
    (pool : Pool) : Pool :=
  let pool1 := cleanupIdleConnections now maxIdleTime none pool
  pool1.foldl (probeEntry testOk) pool1

/-- C5 counterexample: a freshly used, active entry whose probe fails in
every round is still in the pool after three health-check rounds, with
`error_count = 1`: the first failure marks it inactive, and inactive entries
are skipped (`continue`) by all later rounds, so `error_count` never reaches
3 and the entry is never removed by the health-check loop. -/
theorem failing_entry_not_removed_after_three_rounds :
    ((healthCheckRound 300 (fun _ => false) 0)^[3]
      [(connectionKey "h1".data 22 "u".data,
        { host := "h1".data, port := 22, user := "u".data, createdAt := 0,
          lastUsed := 0, useCount := 1 })]).map (fun kc => kc.2.errorCount) = [1]
    ∧ ((healthCheckRound 300 (fun _ => false) 0)^[3]
      [(connectionKey "h1".data 22 "u".data,
        { host := "h1".data, port := 22, user := "u".data, createdAt := 0,
          lastUsed := 0, useCount := 1 })]) ≠ [] := by
  constructor <;> decide

/-- C5 amended: for a pool holding one active entry that is not idle beyond
the threshold and whose probes always fail, any positive number of
health-check rounds leaves exactly that entry in the pool, inactive, with
`error_count` incremented once and never more: the first failed probe marks
the entry inactive, later rounds skip inactive entries, so `error_count`
never reaches 3 and the health-check loop never removes the entry (it is
only removed lazily by a later `get_connection` on its key). -/
theorem health_check_first_failure_only (maxIdleTime : Int) (now : Nat)
    (k : List Char) (c : ConnectionInfo) (n : Nat) (hact : c.isActive = true)
    (hidle : (now : Int) - (c.lastUsed : Int) ≤ maxIdleTime)
    (hec : c.errorCount = 0) (hn : 1 ≤ n) :
    (healthCheckRound maxIdleTime (fun _ => false) now)^[n] [(k, c)] =
      [(k, { c with
        isActive := false
        errorCount := 1
        lastError := some "Connection test failed" })] := by
  set c1 : ConnectionInfo := { c with
    isActive := false
    errorCount := 1
    lastError := some "Connection test failed" } with hc1
  have hcand : idleCandidates now maxIdleTime [(k, c)] = [] := by
    simp [idleCandidates, hact, not_lt.2 hidle]
  have hclean : cleanupIdleConnections now maxIdleTime none [(k, c)] = [(k, c)] := by
    simp [cleanupIdleConnections, hcand, List.insertionSort]
  have hstep : healthCheckRound maxIdleTime (fun _ => false) now [(k, c)] =
      [(k, c1)] := by
    simp only [healthCheckRound, hclean, List.foldl_cons, List.foldl_nil]
    simp [probeEntry, hact, hec, hc1]
  have hcand1 : idleCandidates now maxIdleTime [(k, c1)] = [] := by
    simp [idleCandidates, hc1]
  have hclean1 : cleanupIdleConnections now maxIdleTime none [(k, c1)] =
      [(k, c1)] := by
    simp [cleanupIdleConnections, hcand1, List.insertionSort]
  have hfix : healthCheckRound maxIdleTime (fun _ => false) now [(k, c1)] =
      [(k, c1)] := by
    simp only [healthCheckRound, hclean1, List.foldl_cons, List.foldl_nil]
    simp [probeEntry, hc1]
  obtain ⟨m, rfl⟩ : ∃ m, n = m + 1 := ⟨n - 1, by omega⟩
  rw [Function.iterate_succ_apply, hstep, Function.iterate_fixed hfix]

/-- Witness for the amended C5 theorem at the counterexample entry and three
rounds. -/
theorem health_check_first_failure_only_witness :
    (healthCheckRound 300 (fun _ => false) 0)^[3]
      [(connectionKey "h1".data 22 "u".data,
        { host := "h1".data, port := 22, user := "u".data, createdAt := 0,
          lastUsed := 0, useCount := 1 })] =
      [(connectionKey "h1".data 22 "u".data,
        { host := "h1".data, port := 22, user := "u".data, createdAt := 0,
          lastUsed := 0, useCount := 1, isActive := false, errorCount := 1,
          lastError := some "Connection test failed" })] := by
  have h := health_check_first_failure_only 300 0 (connectionKey "h1".data 22 "u".data)
    { host := "h1".data, port := 22, user := "u".data, createdAt := 0,
      lastUsed := 0, useCount := 1 } 3 rfl (by decide) rfl (by decide)
  exact h

/-! ### Configuration (`ztw_manager/config.py`) -/

/-- `JumphostConfig` dataclass (config.py lines 17-25). -/
structure JumphostConfig where
  host : String := ""
  user : String := ""
  password : String := ""
  keyFile : String := ""
  port : Nat := 22
  timeout : Nat := 30
  deriving Repr, DecidableEq

/-- `Config` dataclass (config.py lines 60-100); only the fields read by
`_validate` plus `max_parallel` are carried. -/
structure Config where
  hosts : List String := []
  user : String := ""
  password : String := ""
  keyFile : String := ""
  port : Nat := 22
  timeout : Nat := 30
  maxParallel : Nat := 10
  jumphost : Option JumphostConfig := none
  deriving Repr, DecidableEq

/-- The jumphost checks of `Config._validate` (config.py lines 132-140).
`os.path.exists` is abstracted as the oracle `fileExists`. -/
def validateJumphost (fileExists : String → Bool) (j : JumphostConfig) :
    Except String Unit :=
  if j.host = "" then .error "Jumphost host not specified"
  else if j.user = "" then .error "Jumphost username not specified"
  else if j.password = "" ∧ j.keyFile = "" then
    .error "Either jumphost password or key_file must be specified"
  else if j.keyFile ≠ "" ∧ fileExists j.keyFile = false then
    .error "Jumphost key file not found"
  else .ok ()

/-- `Config._validate` (config.py lines 118-140), run by `__post_init__` at
construction.  Empty strings model Python falsy credential fields. -/
def validateConfig (fileExists : String → Bool) (cfg : Config) : Except String Unit :=
  if cfg.hosts = [] then .error "No hosts specified in configuration"
  else if cfg.user = "" then .error "No username specified in configuration"
  else if cfg.password = "" ∧ cfg.keyFile = "" then
    .error "Either password or key_file must be specified"
  else if cfg.keyFile ≠ "" ∧ fileExists cfg.keyFile = false then
    .error "Key file not found"
  else
    match cfg.jumphost with
    | none => .ok ()
    | some j => validateJumphost fileExists j

/-- A configuration carrying both a password and an (existing) key file, with
`max_parallel = 0`. -/
def bothCredsConfig : Config :=
  { hosts := ["h1"], user := "u", password := "p", keyFile := "/k", maxParallel := 0 }

/-- C6 counterexample: `_validate` accepts a configuration that carries both
a password and a key path and has `max_parallel = 0`; neither the
exactly-one-credential rule nor the `max_parallel ≥ 1` rule is enforced. -/
theorem config_validation_accepts_both_credentials :
    validateConfig (fun _ => true) bothCredsConfig = .ok () ∧
      bothCredsConfig.password ≠ "" ∧ bothCredsConfig.keyFile ≠ "" ∧
      bothCredsConfig.maxParallel = 0 := by
  refine ⟨?_, by decide, by decide, rfl⟩
  rfl

/-- C6 amended: `_validate` accepts a configuration exactly when the host
list and user are non-empty, at least one of password/key-path is present
(both together are allowed), any key file given exists (likewise for the
jumphost block); `max_parallel` is never checked. -/
theorem config_validation_amended (fileExists : String → Bool) (cfg : Config) :
    validateConfig fileExists cfg = .ok () ↔
      (cfg.hosts ≠ [] ∧ cfg.user ≠ "" ∧ (cfg.password ≠ "" ∨ cfg.keyFile ≠ "") ∧
        (cfg.keyFile ≠ "" → fileExists cfg.keyFile = true) ∧
        (∀ j, cfg.jumphost = some j →
          j.host ≠ "" ∧ j.user ≠ "" ∧ (j.password ≠ "" ∨ j.keyFile ≠ "") ∧
          (j.keyFile ≠ "" → fileExists j.keyFile = true))) := by
  rcases hj : cfg.jumphost with _ | j <;>
    simp only [validateConfig, validateJumphost, hj] <;>
    split_ifs <;> simp_all <;> tauto

/-- Witness for the amended C6 theorem at the both-credentials
configuration. -/
theorem config_validation_amended_witness :
    validateConfig (fun _ => true) bothCredsConfig = .ok () :=
  (config_validation_amended (fun _ => true) bothCredsConfig).2
    ⟨by decide, by decide, Or.inl (by decide), fun _ => rfl, by simp [bothCredsConfig]⟩

/-! ### Log capture (`vwt_monitor/log_capture.py`) -/

/-- `LogEntry` dataclass (log_capture.py lines 27-38); timestamps are
modelled as naturals, the optional pid/tid/metadata fields are omitted. -/
structure LogEntry where
  host : String
  timestamp : Nat
  level : String := "INFO"
  message : String := ""
  sourceFile : String := ""
  deriving Repr, DecidableEq

/-- The buffer part of `LogCapture._process_log_entry` (log_capture.py lines
291-296): append the entry, then `pop(0)` once if the buffer exceeds
`config.buffer_size`. -/
def processLogEntry (bufferSize : Nat) (buf : List LogEntry) (entry : LogEntry) :
    List LogEntry :=
  let b := buf ++ [entry]
  if bufferSize < b.length then b.tail else b

/-- Folding the ring-buffer step over a stream keeps exactly the last
`cap` entries: the result is a `drop` of the full input stream. -/
theorem foldl_processLogEntry (cap : Nat) (entries : List LogEntry) :
    ∀ buf : List LogEntry, buf.length ≤ cap →
      entries.foldl (processLogEntry cap) buf =
        (buf ++ entries).drop (buf.length + entries.length - cap) := by
  induction entries with
  | nil =>
    intro buf h
    simp [Nat.sub_eq_zero_of_le h]
  | cons e t ih =>
    intro buf h
    rw [List.foldl_cons]
    by_cases hlt : buf.length < cap
    · have hpe : processLogEntry cap buf e = buf ++ [e] := by
        unfold processLogEntry
        rw [if_neg]
        simp only [List.length_append, List.length_cons, List.length_nil]
        omega
      rw [hpe, ih (buf ++ [e]) (by simp; omega)]
      have hlen : (buf ++ [e]).length + t.length - cap =
          buf.length + (e :: t).length - cap := by simp; omega
      rw [hlen, List.append_assoc]
      rfl
    · have hb : buf.length = cap := le_antisymm h (not_lt.1 hlt)
      have hpe : processLogEntry cap buf e = (buf ++ [e]).tail := by
        unfold processLogEntry
        rw [if_pos]
        simp [hb]
      have htl : (buf ++ [e]).tail.length ≤ cap := by simp [hb]
      rw [hpe, ih ((buf ++ [e]).tail) htl]
      have h1 : (buf ++ [e]).tail ++ t = (buf ++ e :: t).tail := by
        cases buf <;> simp
      have h2 : (buf ++ [e]).tail.length + t.length - cap = t.length := by
        simp [hb]
      have h3 : buf.length + (e :: t).length - cap = t.length + 1 := by
        simp [hb]
      rw [h1, h2, h3, show (buf ++ e :: t).tail = (buf ++ e :: t).drop 1 from
        (List.drop_one _).symm, List.drop_drop, Nat.add_comm]

/-- C7: the log ring buffer never holds more than `buffer_size` entries, the
discarded entry on overflow is the oldest by insertion order (the retained
buffer is always the suffix of the ingested stream), and ingesting 150 lines
into a buffer of capacity 100 leaves exactly entries 51-150 in arrival
order. -/
theorem log_ring_buffer_bound :
    (∀ (cap : Nat) (entries : List LogEntry),
      (entries.foldl (processLogEntry cap) []).length ≤ cap)
    ∧ (∀ (cap : Nat) (entries : List LogEntry),
        entries.foldl (processLogEntry cap) [] =
          entries.drop (entries.length - cap))
    ∧ ((List.range 150).map fun i => ({ host := "h1", timestamp := i } : LogEntry)).foldl
        (processLogEntry 100) [] =
        ((List.range 150).map fun i => ({ host := "h1", timestamp := i } : LogEntry)).drop 50 := by
  have key : ∀ (cap : Nat) (entries : List LogEntry),
      entries.foldl (processLogEntry cap) [] = entries.drop (entries.length - cap) := by
    intro cap entries
    have h := foldl_processLogEntry cap entries [] (by simp)
    simpa using h
  refine ⟨?_, key, ?_⟩
  · intro cap entries
    rw [key]
    simp only [List.length_drop]
    omega
  · rw [key]
    simp

/-! ### Iperf pass/fail (`vwt_monitor/iperf_manager.py`, `parse_iperf_file`) -/

/-- `np.mean` over the interval throughput samples (Gbit/s). -/
def npMean (xs : List ℚ) : ℚ :=
  xs.sum / (xs.length : ℚ)

/-- The pass/fail expression of `parse_iperf_file` (iperf_manager.py lines
532-540): `test_result_fail = avg < expected and avg < expected * (1 -
tolerance_pct / 100)`. -/
def iperfTestResultFail (avgThroughput expectedResult tolerancePct : ℚ) : Bool :=
  decide (avgThroughput < expectedResult) &&
    decide (avgThroughput < expectedResult * (1 - tolerancePct / 100))

/-- The pass/fail slice of `parse_iperf_file`: `avg_throughput` is computed
only when the interval sample list is non-empty, and `test_result_fail` is
set only when both `expected_result` and `avg_throughput` are present. -/
def parseIperfPassFail (throughputValues : List ℚ) (expectedResult : Option ℚ)
    (tolerancePct : ℚ) : Option Bool :=
  match expectedResult,
    (if throughputValues.isEmpty then none else some (npMean throughputValues)) with
  | some e, some avg => some (iperfTestResultFail avg e tolerancePct)
  | _, _ => none

/-- Ten interval samples between 7.5 and 8.5 Gbit/s averaging exactly 8
(spec §8 scenario 5). -/
def iperfDemoSamples : List ℚ :=
  [75/10, 76/10, 77/10, 78/10, 79/10, 81/10, 82/10, 83/10, 84/10, 85/10]

/-- C9: `test_result_fail` is true exactly when the average throughput is
below `expected` and below `expected * (1 - tolerance/100)`; for samples
averaging 8.0 Gbit/s, `expected_result = 8.0, tolerance_pct = 10` gives
`test_result_fail = false` while `expected_result = 9.5` gives `true`. -/
theorem iperf_pass_fail_characterization :
    (∀ (xs : List ℚ) (e tol : ℚ), xs ≠ [] →
      (parseIperfPassFail xs (some e) tol = some true ↔
        npMean xs < e ∧ npMean xs < e * (1 - tol / 100)))
    ∧ npMean iperfDemoSamples = 8
    ∧ parseIperfPassFail iperfDemoSamples (some 8) 10 = some false
    ∧ parseIperfPassFail iperfDemoSamples (some (19/2)) 10 = some true := by
  have hmean : npMean iperfDemoSamples = 8 := by
    simp [npMean, iperfDemoSamples]
    norm_num
  have hne : iperfDemoSamples.isEmpty = false := by decide
  refine ⟨?_, hmean, ?_, ?_⟩
  · intro xs e tol hxs
    have hempty : xs.isEmpty = false := by
      simpa [List.isEmpty_iff] using hxs
    simp [parseIperfPassFail, hempty, iperfTestResultFail]
  · simp only [parseIperfPassFail, hne, if_false, iperfTestResultFail, hmean]
    norm_num
  · simp only [parseIperfPassFail, hne, if_false, iperfTestResultFail, hmean]
    norm_num

/-- Witness for C9 at the demo samples with `expected_result = 9.5`. -/
theorem iperf_pass_fail_characterization_witness :
    npMean iperfDemoSamples < 19/2 ∧
      npMean iperfDemoSamples < 19/2 * (1 - 10/100) :=
  (iperf_pass_fail_characterization.1 iperfDemoSamples (19/2) 10 (by decide)).1
    iperf_pass_fail_characterization.2.2.2

/-! ### Percentiles (`parse_iperf_file`, iperf_manager.py lines 507-531)

`np.percentile(values, p)` with the default linear interpolation: sort the
samples ascending, take the virtual index `pos = p/100 * (n-1)`, and
linearly interpolate between the neighbouring order statistics.  Exact
rational arithmetic stands in for numpy floats. -/

/-- Linear interpolation of a sorted sample list at a virtual index. -/
def interpolateAt (s : List ℚ) (pos : ℚ) : ℚ :=
  s.getD (Int.floor pos).toNat 0 +
    (pos - ((Int.floor pos : ℤ) : ℚ)) *
      (s.getD (Int.ceil pos).toNat 0 - s.getD (Int.floor pos).toNat 0)

/-- `np.percentile(xs, q)`, linear method. -/
def npPercentile (xs : List ℚ) (q : ℚ) : ℚ :=
  interpolateAt (List.insertionSort (fun a b => a ≤ b) xs)
    (q / 100 * (((List.insertionSort (fun a b => a ≤ b) xs).length : ℚ) - 1))

/-- The `throughput_percentiles` dictionary of `parse_iperf_file`: the six
ranks 10, 25, 50, 75, 90, 99. -/
def throughputPercentiles (xs : List ℚ) : List (Nat × ℚ) :=
  [10, 25, 50, 75, 90, 99].map fun p => (p, npPercentile xs (p : ℚ))

/-- Reading a sorted list at increasing indices is monotone. -/
theorem sorted_getD_mono (s : List ℚ) (hs : s.Sorted (fun a b => a ≤ b))
    {i j : Nat} (hij : i ≤ j) (hj : j < s.length) : s.getD i 0 ≤ s.getD j 0 := by
  rw [List.getD_eq_getElem _ _ (lt_of_le_of_lt hij hj), List.getD_eq_getElem _ _ hj]
  exact hs.rel_get_of_le hij

/-- Floor index of an in-range virtual position is in range. -/
theorem floor_toNat_lt (s : List ℚ) (pos : ℚ) (hne : s ≠ []) (h0 : 0 ≤ pos)
    (hn : pos ≤ (s.length : ℚ) - 1) : (Int.floor pos).toNat < s.length := by
  have hlen : 1 ≤ s.length := List.length_pos.2 hne
  have hq : ((Int.floor pos : ℤ) : ℚ) ≤ (s.length : ℚ) - 1 :=
    le_trans (Int.floor_le pos) hn
  have hz : Int.floor pos ≤ (s.length : ℤ) - 1 := by exact_mod_cast hq
  have h0z : 0 ≤ Int.floor pos := Int.floor_nonneg.2 h0
  omega

/-- Ceiling index of an in-range virtual position is in range. -/
theorem ceil_toNat_lt (s : List ℚ) (pos : ℚ) (hne : s ≠ []) (h0 : 0 ≤ pos)
    (hn : pos ≤ (s.length : ℚ) - 1) : (Int.ceil pos).toNat < s.length := by
  have hlen : 1 ≤ s.length := List.length_pos.2 hne
  have hz : Int.ceil pos ≤ (s.length : ℤ) - 1 := Int.ceil_le.2 (by exact_mod_cast hn)
  omega

/-- The interpolated value lies between its two neighbouring order
statistics. -/
theorem interpolateAt_between (s : List ℚ) (hs : s.Sorted (fun a b => a ≤ b))
    (hne : s ≠ []) (pos : ℚ) (h0 : 0 ≤ pos) (hn : pos ≤ (s.length : ℚ) - 1) :
    s.getD (Int.floor pos).toNat 0 ≤ interpolateAt s pos ∧
      interpolateAt s pos ≤ s.getD (Int.ceil pos).toNat 0 := by
  have hclt := ceil_toNat_lt s pos hne h0 hn
  have hle : (Int.floor pos).toNat ≤ (Int.ceil pos).toNat := by
    have := Int.floor_le_ceil pos
    omega
  have hab : s.getD (Int.floor pos).toNat 0 ≤ s.getD (Int.ceil pos).toNat 0 :=
    sorted_getD_mono s hs hle hclt
  have hw0 : 0 ≤ pos - ((Int.floor pos : ℤ) : ℚ) := sub_nonneg.2 (Int.floor_le pos)
  have hw1 : pos - ((Int.floor pos : ℤ) : ℚ) ≤ 1 := by
    have := Int.lt_floor_add_one pos
    push_cast at this ⊢
    linarith
  unfold interpolateAt
  constructor
  · nlinarith [mul_nonneg hw0 (sub_nonneg.2 hab)]
  · nlinarith [mul_nonneg (sub_nonneg.2 hw1) (sub_nonneg.2 hab)]

/-- Linear interpolation over a sorted list is monotone in the virtual
position. -/
theorem interpolateAt_mono (s : List ℚ) (hs : s.Sorted (fun a b => a ≤ b))
    (hne : s ≠ []) (p q : ℚ) (hp0 : 0 ≤ p) (hpq : p ≤ q)
    (hq : q ≤ (s.length : ℚ) - 1) : interpolateAt s p ≤ interpolateAt s q := by
  have hq0 : 0 ≤ q := le_trans hp0 hpq
  have hp : p ≤ (s.length : ℚ) - 1 := le_trans hpq hq
  by_cases hcase : Int.ceil p ≤ Int.floor q
  · have h1 := (interpolateAt_between s hs hne p hp0 hp).2
    have h2 := (interpolateAt_between s hs hne q hq0 hq).1
    have hmid : s.getD (Int.ceil p).toNat 0 ≤ s.getD (Int.floor q).toNat 0 := by
      apply sorted_getD_mono s hs _ (floor_toNat_lt s q hne hq0 hq)
      have : 0 ≤ Int.ceil p := le_trans (Int.floor_nonneg.2 hp0) (Int.floor_le_ceil p)
      omega
    linarith
  · have hfl : Int.floor p ≤ Int.floor q := Int.floor_mono hpq
    have hclp : Int.ceil p ≤ Int.floor p + 1 := Int.ceil_le_floor_add_one p
    have heq : Int.floor q = Int.floor p := by omega
    by_cases hpint : Int.ceil p = Int.floor p
    · have hpeq : p = ((Int.floor p : ℤ) : ℚ) := by
        have h1 := Int.floor_le p
        have h2 := Int.le_ceil p
        rw [hpint] at h2
        linarith
      have hzero : interpolateAt s p = s.getD (Int.floor p).toNat 0 := by
        unfold interpolateAt
        rw [show p - ((Int.floor p : ℤ) : ℚ) = 0 by rw [← hpeq]; ring]
        ring
      rw [hzero, show Int.floor p = Int.floor q from heq.symm]
      exact (interpolateAt_between s hs hne q hq0 hq).1
    · have hcp : Int.ceil p = Int.floor p + 1 := by
        have := Int.floor_le_ceil p
        omega
      by_cases hqint : Int.ceil q = Int.floor q
      · have hqeq : q = ((Int.floor q : ℤ) : ℚ) := by
          have h1 := Int.floor_le q
          have h2 := Int.le_ceil q
          rw [hqint] at h2
          linarith
        have hpq2 : p = q := by
          have h3 : ((Int.floor p : ℤ) : ℚ) ≤ p := Int.floor_le p
          rw [heq] at hqeq
          linarith
        rw [hpq2]
      · have hcq : Int.ceil q = Int.floor q + 1 := by
          have := Int.ceil_le_floor_add_one q
          have := Int.floor_le_ceil q
          omega
        have hblt : (Int.floor p + 1).toNat < s.length := by
          have := ceil_toNat_lt s q hne hq0 hq
          rw [hcq, heq] at this
          exact this
        have hab : s.getD (Int.floor p).toNat 0 ≤ s.getD (Int.floor p + 1).toNat 0 := by
          apply sorted_getD_mono s hs _ hblt
          have : 0 ≤ Int.floor p := Int.floor_nonneg.2 hp0
          omega
        unfold interpolateAt
        rw [hcq, hcp, heq]
        have hd : ((Int.floor p : ℤ) : ℚ) ≤ p := Int.floor_le p
        nlinarith [mul_nonneg (sub_nonneg.2 hpq) (sub_nonneg.2 hab)]

/-- The interpolated value is bounded by the first and last order
statistics. -/
theorem interpolateAt_bounds (s : List ℚ) (hs : s.Sorted (fun a b => a ≤ b))
    (hne : s ≠ []) (pos : ℚ) (h0 : 0 ≤ pos) (hn : pos ≤ (s.length : ℚ) - 1) :
    s.getD 0 0 ≤ interpolateAt s pos ∧
      interpolateAt s pos ≤ s.getD (s.length - 1) 0 := by
  have hbetween := interpolateAt_between s hs hne pos h0 hn
  constructor
  · have h1 : s.getD 0 0 ≤ s.getD (Int.floor pos).toNat 0 :=
      sorted_getD_mono s hs (Nat.zero_le _) (floor_toNat_lt s pos hne h0 hn)
    linarith [hbetween.1]
  · have hclt := ceil_toNat_lt s pos hne h0 hn
    have h1 : s.getD (Int.ceil pos).toNat 0 ≤ s.getD (s.length - 1) 0 := by
      apply sorted_getD_mono s hs (by omega)
      have := List.length_pos.2 hne
      omega
    linarith [hbetween.2]

/-- C8: the percentiles computed by `parse_iperf_file` over a non-empty
sample list are monotone in the rank: with `m` the minimum and `M` the
maximum of the samples, `m ≤ p10 ≤ p25 ≤ p50 ≤ p75 ≤ p90 ≤ p99 ≤ M`. -/
theorem percentile_monotonicity (xs : List ℚ) (m M : ℚ) (hne : xs ≠ [])
    (hmmem : m ∈ xs) (hmin : ∀ x ∈ xs, m ≤ x)
    (hMmem : M ∈ xs) (hmax : ∀ x ∈ xs, x ≤ M) :
    m ≤ npPercentile xs 10 ∧
    npPercentile xs 10 ≤ npPercentile xs 25 ∧
    npPercentile xs 25 ≤ npPercentile xs 50 ∧
    npPercentile xs 50 ≤ npPercentile xs 75 ∧
    npPercentile xs 75 ≤ npPercentile xs 90 ∧
    npPercentile xs 90 ≤ npPercentile xs 99 ∧
    npPercentile xs 99 ≤ M := by
  have hs : (List.insertionSort (fun a b : ℚ => a ≤ b) xs).Sorted (fun a b => a ≤ b) :=
    List.sorted_insertionSort _ xs
  have hperm := List.perm_insertionSort (fun a b : ℚ => a ≤ b) xs
  set s := List.insertionSort (fun a b : ℚ => a ≤ b) xs with hsdef
  have hsne : s ≠ [] := by
    intro hnil
    apply hne
    have := hperm.length_eq
    rw [hnil] at this
    exact List.length_eq_zero.1 this.symm
  have hlen : 1 ≤ s.length := List.length_pos.2 hsne
  have hlenq : (0 : ℚ) ≤ (s.length : ℚ) - 1 := by
    have : (1 : ℚ) ≤ (s.length : ℚ) := by exact_mod_cast hlen
    linarith
  have hpos : ∀ q : ℚ, 0 ≤ q → q ≤ 100 →
      0 ≤ q / 100 * ((s.length : ℚ) - 1) ∧
      q / 100 * ((s.length : ℚ) - 1) ≤ (s.length : ℚ) - 1 := by
    intro q h0 h100
    constructor
    · exact mul_nonneg (div_nonneg h0 (by norm_num)) hlenq
    · have hq1 : q / 100 ≤ 1 := (div_le_one (by norm_num)).2 h100
      exact mul_le_of_le_one_left hlenq hq1
  have hmono : ∀ q1 q2 : ℚ, 0 ≤ q1 → q1 ≤ q2 → q2 ≤ 100 →
      npPercentile xs q1 ≤ npPercentile xs q2 := by
    intro q1 q2 h0 h12 h100
    unfold npPercentile
    rw [← hsdef]
    apply interpolateAt_mono s hs hsne
    · exact (hpos q1 h0 (le_trans h12 h100)).1
    · exact mul_le_mul_of_nonneg_right
        ((div_le_div_right (by norm_num)).2 h12) hlenq
    · exact (hpos q2 (le_trans h0 h12) h100).2
  have hminb : m ≤ npPercentile xs 10 := by
    have hhead : m ≤ s.getD 0 0 := by
      apply hmin
      rw [← hperm.mem_iff]
      rw [List.getD_eq_getElem _ _ (by omega)]
      exact List.getElem_mem _
    unfold npPercentile
    rw [← hsdef]
    have := (interpolateAt_bounds s hs hsne (10 / 100 * ((s.length : ℚ) - 1))
      (hpos 10 (by norm_num) (by norm_num)).1 (hpos 10 (by norm_num) (by norm_num)).2).1
    linarith
  have hmaxb : npPercentile xs 99 ≤ M := by
    have hlast : s.getD (s.length - 1) 0 ≤ M := by
      apply hmax
      rw [← hperm.mem_iff]
      rw [List.getD_eq_getElem _ _ (by omega)]
      exact List.getElem_mem _
    unfold npPercentile
    rw [← hsdef]
    have := (interpolateAt_bounds s hs hsne (99 / 100 * ((s.length : ℚ) - 1))
      (hpos 99 (by norm_num) (by norm_num)).1 (hpos 99 (by norm_num) (by norm_num)).2).2
    linarith
  exact ⟨hminb,
    hmono 10 25 (by norm_num) (by norm_num) (by norm_num),
    hmono 25 50 (by norm_num) (by norm_num) (by norm_num),
    hmono 50 75 (by norm_num) (by norm_num) (by norm_num),
    hmono 75 90 (by norm_num) (by norm_num) (by norm_num),
    hmono 90 99 (by norm_num) (by norm_num) (by norm_num),
    hmaxb⟩

/-- Witness for C8 at the demo throughput samples (minimum 7.5, maximum
8.5). -/
theorem percentile_monotonicity_witness :
    (75 : ℚ)/10 ≤ npPercentile iperfDemoSamples 10 ∧
    npPercentile iperfDemoSamples 10 ≤ npPercentile iperfDemoSamples 25 ∧
    npPercentile iperfDemoSamples 25 ≤ npPercentile iperfDemoSamples 50 ∧
    npPercentile iperfDemoSamples 50 ≤ npPercentile iperfDemoSamples 75 ∧
    npPercentile iperfDemoSamples 75 ≤ npPercentile iperfDemoSamples 90 ∧
    npPercentile iperfDemoSamples 90 ≤ npPercentile iperfDemoSamples 99 ∧
    npPercentile iperfDemoSamples 99 ≤ (85 : ℚ)/10 :=
  percentile_monotonicity iperfDemoSamples (75/10) (85/10)
    (by simp [iperfDemoSamples])
    (by simp [iperfDemoSamples])
    (by intro x hx; simp [iperfDemoSamples] at hx; rcases hx with h | h | h | h | h | h | h | h | h | h <;> rw [h] <;> norm_num)
    (by simp [iperfDemoSamples])
    (by intro x hx; simp [iperfDemoSamples] at hx; rcases hx with h | h | h | h | h | h | h | h | h | h <;> rw [h] <;> norm_num)

/-! ### SSH manager fan-out entry points (`vwt_monitor/ssh_manager.py`) -/

/-- Interface type standing for the removed `MetricsCollector`
(ssh_manager.py line 30: the import is commented out). -/
structure MetricsCollector where
  opCount : Nat := 0
  deriving Repr, DecidableEq

/-- Python exceptions raised by the fan-out entry points. -/
inductive PyErr where
  | attributeError (attr : String)
  | fileNotFoundError (path : String)
  deriving Repr, DecidableEq

/-- The `SSHManager` attributes relevant to the fan-out entry points.
`vwt_monitor/config.py` is not present in the tree; its sibling
`ztw_manager/config.py` defines the `Config` used here, of which only
`hosts` is read by these paths. -/
structure SSHManagerState where
  configHosts : List String
  metrics : Option MetricsCollector
  deriving Repr, DecidableEq

/-- `SSHManager.__init__` (ssh_manager.py lines 65-109): the assignment
`self.metrics = MetricsCollector(...)` is commented out (lines 82-85), so
the `metrics` attribute is never set; modelled as `none`. -/
def sshManagerInit (cfg : Config) : SSHManagerState :=
  { configHosts := cfg.hosts, metrics := none }

/-- `target_hosts = hosts or self.config.hosts` (Python `or`: an empty list
argument falls back to the configured hosts). -/
def targetHosts (st : SSHManagerState) (hosts : Option (List String)) : List String :=
  match hosts with
  | some l => if l.isEmpty then st.configHosts else l
  | none => st.configHosts

/-- `self.metrics.start_operation(op_type, host)`: dereferencing the missing
attribute raises `AttributeError`; with a metrics object present it returns
an operation id. -/
def startOperation (metrics : Option MetricsCollector) (opType host : String) :
    Except PyErr Nat :=
  match metrics with
  | none => .error (.attributeError "metrics")
  | some _ => .ok 0

/-- The `for host in target_hosts: operation_ids[host] =
self.metrics.start_operation(...)` loop that every fan-out entry point runs
before dispatching any per-host work (ssh_manager.py lines 156-158, 408-410,
584-586, 787-790, 1005-1008). -/
def startMetricsOps (metrics : Option MetricsCollector) (opType : String)
    (hosts : List String) : Except PyErr (List (String × Nat)) :=
  hosts.foldlM (fun acc host => do
    let oid ← startOperation metrics opType host
    pure (acc ++ [(host, oid)])) []

/-- `CommandResult` dataclass (ssh_manager.py lines 34-44). -/
structure CommandResult where
  host : String
  command : String
  output : String := ""
  error : String := ""
  exitCode : Int := 0
  success : Bool := true
  deriving Repr, DecidableEq

/-- `FileTransferResult` dataclass (ssh_manager.py lines 47-59). -/
structure FileTransferResult where
  host : String
  operation : String
  localPath : String := ""
  remotePath : String := ""
  success : Bool := true
  deriving Repr, DecidableEq

/-- `SSHManager.execute_command` (ssh_manager.py lines 135-268): resolve the
target hosts, run the metrics loop, then fan out; per-host execution is the
oracle `runOnHost`. -/
def executeCommandFanout (st : SSHManagerState) (command : String)
    (hosts : Option (List String)) (runOnHost : String → CommandResult) :
    Except PyErr (List CommandResult) := do
  let ths := targetHosts st hosts
  let _ ← startMetricsOps st.metrics "command" ths
  pure (ths.map runOnHost)

/-- `SSHManager.execute_chain_commands` (ssh_manager.py lines 377-516). -/
def executeChainFanout (st : SSHManagerState) (hosts : Option (List String))
    (runOnHost : String → List ChannelResult) :
    Except PyErr (List (String × List ChannelResult)) := do
  let ths := targetHosts st hosts
  let _ ← startMetricsOps st.metrics "chain_command" ths
  pure (ths.map fun h => (h, runOnHost h))

/-- `SSHManager.execute_interactive_commands` (ssh_manager.py lines
563-700). -/
def executeInteractiveFanout (st : SSHManagerState) (hosts : Option (List String))
    (runOnHost : String → List ChannelResult) :
    Except PyErr (List (String × List ChannelResult)) := do
  let ths := targetHosts st hosts
  let _ ← startMetricsOps st.metrics "interactive_command" ths
  pure (ths.map fun h => (h, runOnHost h))

/-- `SSHManager.upload_file` (ssh_manager.py lines 761-900): the local-file
existence check raises `FileNotFoundError` before the metrics loop runs. -/
def uploadFileFanout (st : SSHManagerState) (localPath remotePath : String)
    (hosts : Option (List String)) (localExists : String → Bool)
    (runOnHost : String → FileTransferResult) :
    Except PyErr (List FileTransferResult) := do
  let ths := targetHosts st hosts
  if localExists localPath = false then
    throw (.fileNotFoundError localPath)
  let _ ← startMetricsOps st.metrics "upload" ths
  pure (ths.map runOnHost)

/-- `SSHManager.download_file` (ssh_manager.py lines 983-1120); the
`os.makedirs(local_dir, exist_ok=True)` call is side-effect only. -/
def downloadFileFanout (st : SSHManagerState) (remotePath localDir : String)
    (hosts : Option (List String)) (runOnHost : String → FileTransferResult) :
    Except PyErr (List FileTransferResult) := do
  let ths := targetHosts st hosts
  let _ ← startMetricsOps st.metrics "download" ths
  pure (ths.map runOnHost)

/-- The metrics loop fails on its first host when the attribute is missing. -/
theorem startMetricsOps_none (opType : String) (hosts : List String)
    (hne : hosts ≠ []) :
    startMetricsOps none opType hosts = .error (.attributeError "metrics") := by
  cases hosts with
  | nil => exact absurd rfl hne
  | cons h t => rfl

/-- A validated configuration has a non-empty host list. -/
theorem validateConfig_hosts_ne (fileExists : String → Bool) (cfg : Config)
    (h : validateConfig fileExists cfg = .ok ()) : cfg.hosts ≠ [] := by
  intro hnil
  unfold validateConfig at h
  rw [if_pos hnil] at h
  exact Except.noConfusion h

/-- The resolved target host set of a validated configuration is non-empty,
whatever host argument the caller passes. -/
theorem targetHosts_ne (st : SSHManagerState) (hosts : Option (List String))
    (hcfg : st.configHosts ≠ []) : targetHosts st hosts ≠ [] := by
  cases hosts with
  | none => exact hcfg
  | some l =>
    cases l with
    | nil => simpa [targetHosts] using hcfg
    | cons h t => simp [targetHosts]

/-- C10: on a validated configuration, every fan-out entry point of
`SSHManager` fails before producing any per-host result: the metrics loop
dereferences `self.metrics`, which `__init__` never sets, raising
`AttributeError` (for `upload_file`, a missing local file raises
`FileNotFoundError` even earlier); no per-host result list is ever
returned. -/
theorem fanout_raises_before_any_result (cfg : Config) (fileExists : String → Bool)
    (hvalid : validateConfig fileExists cfg = .ok ())
    (hosts : Option (List String)) (command localPath remotePath localDir : String)
    (runC : String → CommandResult) (runCh runI : String → List ChannelResult)
    (runF : String → FileTransferResult) (localExists : String → Bool) :
    executeCommandFanout (sshManagerInit cfg) command hosts runC =
      .error (.attributeError "metrics")
    ∧ executeChainFanout (sshManagerInit cfg) hosts runCh =
      .error (.attributeError "metrics")
    ∧ executeInteractiveFanout (sshManagerInit cfg) hosts runI =
      .error (.attributeError "metrics")
    ∧ (∃ e, uploadFileFanout (sshManagerInit cfg) localPath remotePath hosts
        localExists runF = .error e)
    ∧ downloadFileFanout (sshManagerInit cfg) remotePath localDir hosts runF =
      .error (.attributeError "metrics") := by
  have hcfg : (sshManagerInit cfg).configHosts ≠ [] :=
    validateConfig_hosts_ne fileExists cfg hvalid
  have hths : ∀ hs, targetHosts (sshManagerInit cfg) hs ≠ [] :=
    fun hs => targetHosts_ne _ hs hcfg
  have hmetrics : (sshManagerInit cfg).metrics = none := rfl
  refine ⟨?_, ?_, ?_, ?_, ?_⟩
  · simp only [executeCommandFanout, hmetrics,
      startMetricsOps_none _ _ (hths hosts)]
    rfl
  · simp only [executeChainFanout, hmetrics,
      startMetricsOps_none _ _ (hths hosts)]
    rfl
  · simp only [executeInteractiveFanout, hmetrics,
      startMetricsOps_none _ _ (hths hosts)]
    rfl
  · by_cases hex : localExists localPath = false
    · exact ⟨.fileNotFoundError localPath, by
        simp only [uploadFileFanout, hex, if_true]
        rfl⟩
    · exact ⟨.attributeError "metrics", by
        simp only [uploadFileFanout, hex, if_false, hmetrics,
          startMetricsOps_none _ _ (hths hosts)]
        rfl⟩
  · simp only [downloadFileFanout, hmetrics,
      startMetricsOps_none _ _ (hths hosts)]
    rfl

/-- Witness for C10 on a concrete validated configuration with one host. -/
theorem fanout_raises_before_any_result_witness :
    executeCommandFanout
      (sshManagerInit { hosts := ["h1"], user := "u", password := "p" }) "whoami" none
      (fun h => { host := h, command := "whoami" }) =
      .error (.attributeError "metrics") :=
  (fanout_raises_before_any_result { hosts := ["h1"], user := "u", password := "p" }
    (fun _ => true) rfl none "whoami" "/tmp/f" "/tmp/g" "out"
    (fun h => { host := h, command := "whoami" }) (fun _ => []) (fun _ => [])
    (fun h => { host := h, operation := "upload" }) (fun _ => true)).1

end VWT
